import Mathlib

/-!
Shallow embedding of the markdown-subset to PDF converter (`txt2pdf.py`).

Text is modelled as `List Char`; a document is the list of its lines
(the source splits the input text on the newline character).  The
renderer (reportlab) is an external collaborator: a layout node records
exactly the information the source passes to it.
-/

/-- Convert a string literal to the character-list representation used
throughout this development. -/
def cl (s : String) : List Char := s.toList

/-- Python `\s` / `str.strip` whitespace test (ASCII range). -/
def pyWS (c : Char) : Bool :=
  c == ' ' || c == '\t' || c == '\n' || c == '\r' || c == '\x0b' || c == '\x0c'

/-- Python `str.strip()`: remove leading and trailing whitespace. -/
def pstrip (l : List Char) : List Char :=
  ((l.dropWhile pyWS).reverse.dropWhile pyWS).reverse

/-- Python `c in s` membership test on text. -/
def hasChar (c : Char) : List Char → Bool
  | [] => false
  | a :: t => a == c || hasChar c t

/-- The table test of the block parser: the raw line contains the
column separator (source line 79: `'|' in lines[i]`). -/
def hasPipe (s : List Char) : Bool := hasChar '|' s

/-- `re.split` on a single literal character: split keeping empty fields
(source line 140/143: `re.split(r'\|', line)`); also models
`str.split('\n')` at source line 53. -/
def splitOnChar (sep : Char) : List Char → List (List Char)
  | [] => [[]]
  | c :: rest =>
    if c = sep then [] :: splitOnChar sep rest
    else
      match splitOnChar sep rest with
      | f :: fs => (c :: f) :: fs
      | [] => [[c]]

/-- Count of leading heading marker characters of a line. -/
def leadHash (line : List Char) : Nat :=
  (line.takeWhile (fun c => c == '#')).length

/-- `re.match(r'^(#{1,6})\s+(.*)', line)` (source line 64).  The greedy
bounded repetition matches the whole leading run of markers when it has
length 1 to 6 and is followed by at least one whitespace character; the
result is the marker count (group 1 length) and the text after the
maximal whitespace run (group 2). -/
def headingMatch (line : List Char) : Option (Nat × List Char) :=
  if 1 ≤ leadHash line ∧ leadHash line ≤ 6 then
    match line.dropWhile (fun c => c == '#') with
    | c :: rest => if pyWS c then some (leadHash line, (c :: rest).dropWhile pyWS) else none
    | [] => none
  else none

/-- `re.match(r'^(\*|\-|\d+\.)\s+(.*)', line)` (source lines 89 and 94).
Returns group 1 (the marker) and group 2 (the text after the maximal
whitespace run following the marker). -/
def listMatch (line : List Char) : Option (List Char × List Char) :=
  match line with
  | [] => none
  | c :: t =>
    if c = '*' ∨ c = '-' then
      match t with
      | c2 :: _ => if pyWS c2 then some ([c], t.dropWhile pyWS) else none
      | [] => none
    else if c.isDigit then
      match t.dropWhile Char.isDigit with
      | '.' :: r =>
        match r with
        | c3 :: _ => if pyWS c3 then some (c :: t.takeWhile Char.isDigit ++ ['.'], r.dropWhile pyWS) else none
        | [] => none
      | _ => none
    else none

/-- Search for the earliest closing double marker `[d, d]` in the text,
with the lazily matched group `(.*?)` unable to cross a newline;
returns the group content and the text after the closing marker. -/
def findClose (d : Char) : List Char → Option (List Char × List Char)
  | [] => none
  | c1 :: t =>
    match t with
    | [] => none
    | c2 :: rest =>
      if c1 = d ∧ c2 = d then some ([], rest)
      else if c1 = '\n' then none
      else
        match findClose d t with
        | some (mid, after) => some (c1 :: mid, after)
        | none => none

/-- One left-to-right `re.sub` pass for `(\*\*|__)(.*?)\1` with
replacement `<b>…</b>` (source lines 126-131).  The fuel only bounds the
number of scan steps; each step consumes at least one character, so fuel
equal to the text length is never exhausted. -/
def subBoldF : Nat → List Char → List Char
  | _, [] => []
  | 0, cs => cs
  | f + 1, c1 :: t =>
    match t with
    | [] => [c1]
    | c2 :: rest =>
      if (c1 = '*' ∧ c2 = '*') ∨ (c1 = '_' ∧ c2 = '_') then
        match findClose c1 rest with
        | some (mid, after) => cl "<b>" ++ mid ++ cl "</b>" ++ subBoldF f after
        | none => c1 :: subBoldF f t
      else c1 :: subBoldF f t

/-- `process_inline` of the source (lines 121-131): substitute every
non-overlapping non-greedy bold pair, left to right. -/
def process_inline (text : List Char) : List Char := subBoldF text.length text

/-- `[cell.strip() for cell in re.split(r'\|', line)[1:-1]]`
(source lines 140 and 143): split a raw table line on the separator,
drop the leading and trailing fields, trim each cell. -/
def rowCells (line : List Char) : List (List Char) :=
  (((splitOnChar '|' line).drop 1).dropLast).map pstrip

/-- `parse_table` (source lines 133-147), up to the construction of the
reportlab `Table` object: `None` for a run of fewer than 2 lines;
otherwise the `data` list whose first element is the header cells and
whose remaining elements are the cells of the lines after the discarded
separator line, keeping exactly the rows whose cell count equals the
header cell count.  The final `if not data` guard of the source is kept
even though `data` always contains the header list. -/
def parse_table (table_lines : List (List Char)) : Option (List (List (List Char))) :=
  match table_lines with
  | [] => none
  | [_] => none
  | l0 :: _ :: rest =>
    let headers := rowCells l0
    let data := headers :: (rest.map rowCells).filter (fun cells => cells.length == headers.length)
    if data.isEmpty then none else some data

/-- A layout node handed to the rendering collaborator: exactly the
flowables the source appends (headings, paragraphs, tables, list blocks
and the fixed spacers that follow each of them). -/
inductive Node where
  | heading (level : Nat) (text : List Char)
  | paragraph (text : List Char)
  | table (data : List (List (List Char)))
  | listBlock (ordered : Bool) (items : List (List Char))
  | spacer
deriving DecidableEq

/-- The classification the main loop applies to the current stripped
line (source lines 56-113): blank, heading, table-like, list line, or
paragraph fallback, tried in that order. -/
inductive StepRes where
  | blank
  | head (lvl : Nat) (txt : List Char)
  | tbl
  | lst (g1 txt : List Char)
  | para

/-- The cascading branch tests of the main loop, in source order:
empty line, heading pattern, separator membership, list pattern,
paragraph fallback. -/
def classify (line : List Char) : StepRes :=
  if line = [] then .blank
  else
    match headingMatch line with
    | some (lvl, txt) => .head lvl txt
    | none =>
      if hasChar '|' line then .tbl
      else
        match listMatch line with
        | some (g1, txt) => .lst g1 txt
        | none => .para

/-- Continuation test of the list run (source lines 92-100): the next
raw line, once stripped, matches the list-line pattern. -/
def qList (s : List Char) : Bool := (listMatch (pstrip s)).isSome

/-- The item text the source builds for one line of a list run
(source lines 93-97): group 2 of the list match of the stripped line,
passed through the inline transform. -/
def listItem (s : List Char) : List Char :=
  match listMatch (pstrip s) with
  | some (_, txt) => process_inline txt
  | none => []

/-- The ordered flag of a list block (source line 103): numbered exactly
when group 1 of the first line's match is neither `*` nor `-`. -/
def ordFlag (g1 : List Char) : Bool := !(g1 == ['*'] || g1 == ['-'])

lemma length_dropWhile_le {α : Type} (p : α → Bool) (l : List α) :
    (l.dropWhile p).length ≤ l.length := by
  induction l with
  | nil => simp [List.dropWhile]
  | cons a t ih =>
    cases hpa : p a <;> simp [List.dropWhile, hpa]
    exact Nat.le_succ_of_le ih

/-- The main loop of `parse_markdown` (source lines 53-119) on the list
of raw lines.  In the table and list branches the run collected by the
source's inner loop starts at the current line, whose own test is
already known to hold (the separator occurs in the stripped line, hence
in the raw line; the list pattern was matched on the same stripped
line), so the run is the current line followed by the matching prefix of
the remaining lines. -/
def parseMD : List (List Char) → List Node
  | [] => []
  | l :: ls =>
    match classify (pstrip l) with
    | .blank => parseMD ls
    | .head lvl txt => Node.heading lvl (process_inline txt) :: Node.spacer :: parseMD ls
    | .tbl =>
      match parse_table (l :: ls.takeWhile hasPipe) with
      | some data => Node.table data :: Node.spacer :: parseMD (ls.dropWhile hasPipe)
      | none => parseMD (ls.dropWhile hasPipe)
    | .lst g1 _txt =>
      Node.listBlock (ordFlag g1) ((l :: ls.takeWhile qList).map listItem) ::
        Node.spacer :: parseMD (ls.dropWhile qList)
    | .para => Node.paragraph (process_inline (pstrip l)) :: Node.spacer :: parseMD ls
termination_by lines => lines.length
decreasing_by
  all_goals simp only [List.length_cons]
  all_goals first
    | exact Nat.lt_succ_of_le (length_dropWhile_le _ _)
    | exact Nat.lt_succ_self _

/-- `parse_markdown` (source lines 16-119): split the input text on
newlines and run the main loop. -/
def parse_markdown (input_text : List Char) : List Node :=
  parseMD (splitOnChar '\n' input_text)

/-- Fuel-counted variant of the main loop: one unit of fuel per loop
iteration, `none` when the fuel runs out before the line index reaches
the end of the input. -/
def parseMDF : Nat → List (List Char) → Option (List Node)
  | 0, _ => none
  | _ + 1, [] => some []
  | f + 1, l :: ls =>
    match classify (pstrip l) with
    | .blank => parseMDF f ls
    | .head lvl txt =>
      (parseMDF f ls).map (fun ns => Node.heading lvl (process_inline txt) :: Node.spacer :: ns)
    | .tbl =>
      match parse_table (l :: ls.takeWhile hasPipe) with
      | some data =>
        (parseMDF f (ls.dropWhile hasPipe)).map (fun ns => Node.table data :: Node.spacer :: ns)
      | none => parseMDF f (ls.dropWhile hasPipe)
    | .lst g1 _txt =>
      (parseMDF f (ls.dropWhile qList)).map
        (fun ns => Node.listBlock (ordFlag g1) ((l :: ls.takeWhile qList).map listItem) ::
          Node.spacer :: ns)
    | .para =>
      (parseMDF f ls).map (fun ns => Node.paragraph (process_inline (pstrip l)) :: Node.spacer :: ns)

/-- Search for the earliest closing single marker `d` in the text, with
the lazily matched group unable to cross a newline. -/
def findClose1 (d : Char) : List Char → Option (List Char × List Char)
  | [] => none
  | c :: rest =>
    if c = d then some ([], rest)
    else if c = '\n' then none
    else
      match findClose1 d rest with
      | some (mid, after) => some (c :: mid, after)
      | none => none

/-- Modelled from the spec: the italic pass of the extended program
variant, which is not present under `src/`.  Per §4.2, the extended
variant rewrites non-greedy italic pairs `*text*` or `_text_` to
`<i>text</i>`, in one left-to-right substitution pass analogous to the
bold pass.  Fuel equal to the text length is never exhausted. -/
def subItalF : Nat → List Char → List Char
  | _, [] => []
  | 0, cs => cs
  | f + 1, c :: t =>
    if c = '*' ∨ c = '_' then
      match findClose1 c t with
      | some (mid, after) => cl "<i>" ++ mid ++ cl "</i>" ++ subItalF f after
      | none => c :: subItalF f t
    else c :: subItalF f t

/-- Modelled from the spec: the italic substitution pass of the extended
variant (absent from `src/`), run on a whole text. -/
def italic_pass (text : List Char) : List Char := subItalF text.length text

/-- Modelled from the spec: the full inline transform of the extended
variant (absent from `src/`) — per §4.2 it "processes all bold matches
before any italic matches", so the bold pass of the source runs first
and the italic pass runs on its output. -/
def process_inline_ext (text : List Char) : List Char := italic_pass (process_inline text)

/-- Association-list lookup of a path in the modelled file system. -/
def lookupFile : List (List Char × List Char) → List Char → Option (List Char)
  | [], _ => none
  | e :: rest, path => if e.1 = path then some e.2 else lookupFile rest path

/-- Modelled from the spec: the conversion routine of the program
variant with the proactive missing-input check, which is not present
under `src/` (the variant under `src/` would raise an uncaught
exception instead).  Per §6/§7, the routine checks the input path
first; a missing input file is reported as a user-facing message and
the conversion aborts before any output is produced, so no output file
is created; otherwise the parsed document is rendered to the output
path.  The result is the list of files written plus the optional error
message. -/
def convert_to_pdf (fs : List (List Char × List Char)) (input_file output_file : List Char) :
    List (List Char × List Node) × Option (List Char) :=
  match lookupFile fs input_file with
  | none => ([], some (cl "Error: input file not found"))
  | some text => ([(output_file, parse_markdown text)], none)

lemma parseMDF_sound : ∀ (f : Nat) (lines : List (List Char)), lines.length < f →
    parseMDF f lines = some (parseMD lines) := by
  intro f
  induction f with
  | zero => intro lines h; exact absurd h (Nat.not_lt_zero _)
  | succ f ih =>
    intro lines h
    cases lines with
    | nil => simp [parseMDF, parseMD]
    | cons l ls =>
      have hls : ls.length < f := Nat.lt_of_succ_lt_succ (by simpa using h)
      have hd : (ls.dropWhile hasPipe).length < f :=
        Nat.lt_of_le_of_lt (length_dropWhile_le _ _) hls
      have hq : (ls.dropWhile qList).length < f :=
        Nat.lt_of_le_of_lt (length_dropWhile_le _ _) hls
      simp only [parseMDF, parseMD]
      cases hc : classify (pstrip l) with
      | blank => exact ih ls hls
      | head lvl txt => rw [ih ls hls]; rfl
      | tbl =>
        cases hpt : parse_table (l :: ls.takeWhile hasPipe) with
        | none => exact ih _ hd
        | some data => rw [ih _ hd]; rfl
      | lst g1 txt => rw [ih _ hq]; rfl
      | para => rw [ih ls hls]; rfl

lemma parseMD_eval (lines : List (List Char)) :
    parseMD lines = (parseMDF (lines.length + 1) lines).getD [] := by
  rw [parseMDF_sound (lines.length + 1) lines (Nat.lt_succ_self _)]; rfl

lemma hasChar_eq_false {c : Char} {l : List Char} (h : c ∉ l) : hasChar c l = false := by
  induction l with
  | nil => rfl
  | cons a t ih =>
    simp only [List.mem_cons, not_or] at h
    simp [hasChar, ih h.2, Ne.symm h.1]

lemma takeWhile_nil_dropWhile {α : Type} {p : α → Bool} {l : List α}
    (h : l.takeWhile p = []) : l.dropWhile p = l := by
  cases l with
  | nil => rfl
  | cons a t =>
    cases hpa : p a with
    | true => simp [List.takeWhile, hpa] at h
    | false => simp [List.dropWhile, hpa]

lemma listMatch_ne_nil {line : List Char} {r : List Char × List Char}
    (h : listMatch line = some r) : line ≠ [] := by
  intro e; subst e; simp [listMatch] at h

lemma heading_none_of_list {line : List Char} {r : List Char × List Char}
    (h : listMatch line = some r) : headingMatch line = none := by
  cases line with
  | nil => simp [listMatch] at h
  | cons c t =>
    have hc : ¬ c = '#' := by
      intro e; subst e
      simp [listMatch, Char.isDigit] at h
    simp [headingMatch, leadHash, List.takeWhile_cons, hc]

lemma listMatch_none_of_hash {t : List Char} : listMatch ('#' :: t) = none := by
  simp [listMatch, Char.isDigit]

lemma head_hash_of_leadHash {line : List Char} (h : 1 ≤ leadHash line) :
    ∃ t, line = '#' :: t := by
  cases line with
  | nil => simp [leadHash] at h
  | cons c t =>
    by_cases hc : c = '#'
    · exact ⟨t, by rw [hc]⟩
    · simp [leadHash, List.takeWhile_cons, hc] at h

lemma headingMatch_level {line : List Char} {lvl : Nat} {txt : List Char}
    (h : headingMatch line = some (lvl, txt)) :
    lvl = leadHash line ∧ 1 ≤ lvl ∧ lvl ≤ 6 := by
  unfold headingMatch at h
  split at h
  · next hcond =>
    split at h
    · next c rest heq =>
      split at h
      · cases h; exact ⟨rfl, hcond.1, hcond.2⟩
      · cases h
    · cases h
  · cases h

lemma classify_head {line : List Char} {lvl : Nat} {txt : List Char}
    (h : headingMatch line = some (lvl, txt)) : classify line = .head lvl txt := by
  have hne : line ≠ [] := by
    intro e; subst e; simp [headingMatch, leadHash] at h
  simp [classify, hne, h]

lemma classify_tbl {line : List Char}
    (h1 : headingMatch line = none) (h2 : hasChar '|' line = true) : classify line = .tbl := by
  have hne : line ≠ [] := by
    intro e; subst e; simp [hasChar] at h2
  simp [classify, hne, h1, h2]

lemma classify_lst {line g1 txt : List Char}
    (h : listMatch line = some (g1, txt)) (h2 : hasChar '|' line = false) :
    classify line = .lst g1 txt := by
  simp [classify, listMatch_ne_nil h, heading_none_of_list h, h2, h]

lemma classify_para {line : List Char} (hne : line ≠ [])
    (h1 : headingMatch line = none) (h2 : hasChar '|' line = false)
    (h3 : listMatch line = none) : classify line = .para := by
  simp [classify, hne, h1, h2, h3]

lemma parseMD_cons_head {l : List Char} {ls : List (List Char)} {lvl : Nat} {txt : List Char}
    (h : classify (pstrip l) = .head lvl txt) :
    parseMD (l :: ls) = Node.heading lvl (process_inline txt) :: Node.spacer :: parseMD ls := by
  rw [parseMD, h]

lemma parseMD_cons_tbl {l : List Char} {ls : List (List Char)}
    (h : classify (pstrip l) = .tbl) :
    parseMD (l :: ls) =
      match parse_table (l :: ls.takeWhile hasPipe) with
      | some data => Node.table data :: Node.spacer :: parseMD (ls.dropWhile hasPipe)
      | none => parseMD (ls.dropWhile hasPipe) := by
  rw [parseMD, h]

lemma parseMD_cons_lst {l : List Char} {ls : List (List Char)} {g1 txt : List Char}
    (h : classify (pstrip l) = .lst g1 txt) :
    parseMD (l :: ls) =
      Node.listBlock (ordFlag g1) ((l :: ls.takeWhile qList).map listItem) ::
        Node.spacer :: parseMD (ls.dropWhile qList) := by
  rw [parseMD, h]

lemma parseMD_cons_para {l : List Char} {ls : List (List Char)}
    (h : classify (pstrip l) = .para) :
    parseMD (l :: ls) =
      Node.paragraph (process_inline (pstrip l)) :: Node.spacer :: parseMD ls := by
  rw [parseMD, h]

lemma subBoldF_id : ∀ (f : Nat) (x : List Char),
    (∀ c ∈ x, ¬(c = '*' ∨ c = '_')) → subBoldF f x = x := by
  intro f
  induction f with
  | zero => intro x _; cases x <;> rfl
  | succ f ih =>
    intro x h
    cases x with
    | nil => rfl
    | cons c1 t =>
      cases t with
      | nil => rfl
      | cons c2 rest =>
        have h1 := h c1 (by simp)
        have hcond : ¬((c1 = '*' ∧ c2 = '*') ∨ (c1 = '_' ∧ c2 = '_')) := by
          rintro (⟨a, _⟩ | ⟨a, _⟩)
          · exact h1 (Or.inl a)
          · exact h1 (Or.inr a)
        simp only [subBoldF, if_neg hcond]
        exact congrArg (c1 :: ·) (ih (c2 :: rest) (fun c hc => h c (List.mem_cons_of_mem _ hc)))

lemma headingMatch_none_of_ge7 {line : List Char} (h : 7 ≤ leadHash line) :
    headingMatch line = none := by
  have hc : ¬(1 ≤ leadHash line ∧ leadHash line ≤ 6) := by omega
  simp [headingMatch, hc]

lemma takeWhile_hash_replicate (k : Nat) :
    List.takeWhile (fun c => c == '#') (List.replicate k '#') = List.replicate k '#' := by
  induction k with
  | zero => rfl
  | succ k ih => simp [List.replicate_succ, List.takeWhile_cons, ih]

lemma dropWhile_hash_replicate (k : Nat) :
    List.dropWhile (fun c => c == '#') (List.replicate k '#') = [] := by
  induction k with
  | zero => rfl
  | succ k ih => simp [List.replicate_succ, List.dropWhile, ih]

lemma headingMatch_replicate_hash (k : Nat) :
    headingMatch (List.replicate k '#') = none := by
  unfold headingMatch leadHash
  rw [takeWhile_hash_replicate, dropWhile_hash_replicate]
  split <;> rfl

/-- C1 (amended): for every contiguous run of table-like lines, if the
run has fewer than 2 lines no table node is emitted and the run is
still consumed without producing any output node; but a run of at least
2 lines always yields a table node, even when header extraction yields
zero columns. -/
theorem short_table_run_no_node :
    (∀ run : List (List Char), run.length < 2 → parse_table run = none) ∧
    (∀ (l : List Char) (ls : List (List Char)),
      headingMatch (pstrip l) = none → hasChar '|' (pstrip l) = true →
      ls.takeWhile hasPipe = [] →
      parseMD (l :: ls) = parseMD ls) ∧
    (∀ (l0 l1 : List Char) (rest : List (List Char)),
      (parse_table (l0 :: l1 :: rest)).isSome = true) := by
  refine ⟨?_, ?_, ?_⟩
  · intro run h
    cases run with
    | nil => rfl
    | cons a t =>
      cases t with
      | nil => rfl
      | cons b r => simp only [List.length_cons] at h; omega
  · intro l ls h1 h2 htw
    rw [parseMD_cons_tbl (classify_tbl h1 h2), htw]
    simp [parse_table, takeWhile_nil_dropWhile htw]
  · intro l0 l1 rest
    simp [parse_table]

/-- C1 (counterexample to the claim as stated): the two-line run
`a|b` / `c|d` has zero header columns, yet a table node with an empty
header row is emitted. -/
theorem zero_column_table_emitted :
    rowCells (cl "a|b") = [] ∧
    parse_table [cl "a|b", cl "c|d"] = some [[]] ∧
    parseMD [cl "a|b", cl "c|d"] = [Node.table [[]], Node.spacer] := by
  refine ⟨by decide, by decide, ?_⟩
  rw [parseMD_eval]; decide

/-- C1 witness: a one-line run yields no table and is consumed without
output; a two-line run always yields a table node. -/
theorem short_table_run_no_node_witness :
    parse_table [cl "| x |"] = none ∧
    parseMD [cl "|a|b|"] = parseMD [] ∧
    (parse_table [cl "a|b", cl "c|d"]).isSome = true := by
  obtain ⟨h1, h2, h3⟩ := short_table_run_no_node
  exact ⟨h1 [cl "| x |"] (by decide), h2 (cl "|a|b|") [] (by decide) (by decide) rfl,
    h3 (cl "a|b") (cl "c|d") []⟩

/-- C2 (amended): a stripped line matching the heading pattern is
emitted as a heading whose level equals the count of leading marker
characters, necessarily between 1 and 6; a line with 7 or more leading
markers never matches as a heading, and if it contains no column
separator it falls through to the paragraph rule (a 7-plus-marker line
containing a separator is consumed by the table rule instead). -/
theorem heading_level_matches_marker_count :
    (∀ (l : List Char) (ls : List (List Char)) (lvl : Nat) (txt : List Char),
      headingMatch (pstrip l) = some (lvl, txt) →
      lvl = leadHash (pstrip l) ∧ 1 ≤ lvl ∧ lvl ≤ 6 ∧
        parseMD (l :: ls) = Node.heading lvl (process_inline txt) :: Node.spacer :: parseMD ls) ∧
    (∀ l : List Char, 7 ≤ leadHash (pstrip l) → headingMatch (pstrip l) = none) ∧
    (∀ (l : List Char) (ls : List (List Char)),
      7 ≤ leadHash (pstrip l) → hasChar '|' (pstrip l) = false →
      parseMD (l :: ls) =
        Node.paragraph (process_inline (pstrip l)) :: Node.spacer :: parseMD ls) := by
  refine ⟨?_, ?_, ?_⟩
  · intro l ls lvl txt h
    obtain ⟨he, hge, hle⟩ := headingMatch_level h
    exact ⟨he, hge, hle, parseMD_cons_head (classify_head h)⟩
  · intro l h
    exact headingMatch_none_of_ge7 h
  · intro l ls h7 hp
    obtain ⟨t, ht⟩ := head_hash_of_leadHash (Nat.le_trans (by omega) h7)
    have hlm : listMatch (pstrip l) = none := by rw [ht]; exact listMatch_none_of_hash
    have hne : pstrip l ≠ [] := by rw [ht]; simp
    exact parseMD_cons_para (classify_para hne (headingMatch_none_of_ge7 h7) hp hlm)

/-- C2 (counterexample to the claim as stated): a line with 7 leading
markers that also contains a column separator is not emitted as a
paragraph — it is consumed by the table rule and produces nothing. -/
theorem seven_hash_line_not_paragraph :
    7 ≤ leadHash (pstrip (cl "####### a | b")) ∧
    parseMD [cl "####### a | b"] = [] := by
  refine ⟨by decide, ?_⟩
  rw [parseMD_eval]; decide

/-- C2 witness: `## hi` is a level-2 heading; `####### x` becomes a
paragraph. -/
theorem heading_level_matches_marker_count_witness :
    headingMatch (pstrip (cl "## hi")) = some (2, cl "hi") ∧
    (2 = leadHash (pstrip (cl "## hi")) ∧ 1 ≤ 2 ∧ 2 ≤ 6 ∧
      parseMD [cl "## hi"] =
        Node.heading 2 (process_inline (cl "hi")) :: Node.spacer :: parseMD []) ∧
    parseMD [cl "####### x"] =
      Node.paragraph (process_inline (pstrip (cl "####### x"))) :: Node.spacer :: parseMD [] :=
  ⟨by decide, heading_level_matches_marker_count.1 (cl "## hi") [] 2 (cl "hi") (by decide),
    heading_level_matches_marker_count.2.2 (cl "####### x") [] (by decide) (by decide)⟩

/-- C3: a table run of length at least 2 yields exactly the rows after
the first two lines whose cell count equals the header cell count, in
order; on the 4-line example the emitted table has 2 columns and the
single data row `1`, `2`, with the malformed `| x |` line dropped. -/
theorem table_rows_filtered_by_header_arity :
    (∀ (l0 l1 : List Char) (rest : List (List Char)),
      parse_table (l0 :: l1 :: rest) =
        some (rowCells l0 ::
          (rest.map rowCells).filter (fun cells => cells.length == (rowCells l0).length))) ∧
    (rowCells (cl "| A | B |")).length = 2 ∧
    parseMD [cl "| A | B |", cl "|---|---|", cl "| 1 | 2 |", cl "| x |"] =
      [Node.table [[cl "A", cl "B"], [cl "1", cl "2"]], Node.spacer] := by
  refine ⟨?_, by decide, ?_⟩
  · intro l0 l1 rest; simp [parse_table]
  · rw [parseMD_eval]; decide

/-- C4 (amended): a contiguous run of list-pattern lines whose first
line contains no column separator is emitted as exactly one list block;
its ordered flag is computed solely from the first line's marker, and
its item count equals the run length (a run whose first line contains a
separator is diverted to the table rule instead). -/
theorem list_run_single_block (l : List Char) (ls : List (List Char)) (g1 txt : List Char)
    (h : listMatch (pstrip l) = some (g1, txt)) (hp : hasChar '|' (pstrip l) = false) :
    parseMD (l :: ls) =
      Node.listBlock (ordFlag g1) ((l :: ls.takeWhile qList).map listItem) ::
        Node.spacer :: parseMD (ls.dropWhile qList) ∧
    ((l :: ls.takeWhile qList).map listItem).length = (l :: ls.takeWhile qList).length :=
  ⟨parseMD_cons_lst (classify_lst h hp), List.length_map _ _⟩

/-- C4 (counterexample to the claim as stated): both lines match the
list-line pattern, yet the run does not become one list block of 2
items — the first line is consumed by the table rule and the emitted
list block has a single item. -/
theorem list_run_with_pipe_split :
    qList (cl "* a | b") = true ∧ qList (cl "* c") = true ∧
    parseMD [cl "* a | b", cl "* c"] = [Node.listBlock false [cl "c"], Node.spacer] := by
  refine ⟨by decide, by decide, ?_⟩
  rw [parseMD_eval]; decide

/-- C4 witness: a mixed-marker run `* a` / `2. b` yields one unordered
block with two items. -/
theorem list_run_single_block_witness :
    parseMD [cl "* a", cl "2. b"] =
      Node.listBlock (ordFlag ['*'])
          ((cl "* a" :: List.takeWhile qList [cl "2. b"]).map listItem) ::
        Node.spacer :: parseMD (List.dropWhile qList [cl "2. b"]) ∧
    ((cl "* a" :: List.takeWhile qList [cl "2. b"]).map listItem).length =
      (cl "* a" :: List.takeWhile qList [cl "2. b"]).length :=
  list_run_single_block (cl "* a") [cl "2. b"] ['*'] (cl "a") (by decide) (by decide)

/-- C5: on the example input the bold pass of the source resolves the
bold pair first, leaving the single markers untouched, and the
spec-modelled italic pass of the extended variant then resolves the
italic pair, so the combined transform yields the expected output. -/
theorem bold_resolved_before_italic :
    process_inline (cl "**hi** and *there*") = cl "<b>hi</b> and *there*" ∧
    italic_pass (cl "<b>hi</b> and *there*") = cl "<b>hi</b> and <i>there</i>" ∧
    process_inline_ext (cl "**hi** and *there*") = cl "<b>hi</b> and <i>there</i>" :=
  ⟨by decide, by decide, by decide⟩

/-- C6: when the input path is missing from the file system, the
conversion writes no file at all and reports a non-empty user-facing
error message. -/
theorem missing_input_no_output (fs : List (List Char × List Char))
    (input_file output_file : List Char) (h : lookupFile fs input_file = none) :
    (convert_to_pdf fs input_file output_file).1 = [] ∧
    ∃ msg, (convert_to_pdf fs input_file output_file).2 = some msg ∧ msg ≠ [] := by
  simp only [convert_to_pdf, h]
  exact ⟨trivial, cl "Error: input file not found", rfl, by decide⟩

/-- C6 witness: converting `input.txt` against an empty file system
creates no output file and yields an error message. -/
theorem missing_input_no_output_witness :
    (convert_to_pdf [] (cl "input.txt") (cl "output.pdf")).1 = [] ∧
    ∃ msg, (convert_to_pdf [] (cl "input.txt") (cl "output.pdf")).2 = some msg ∧ msg ≠ [] :=
  missing_input_no_output [] (cl "input.txt") (cl "output.pdf") rfl

/-- C7: on text containing no emphasis marker characters the inline
transform is the identity, hence idempotent. -/
theorem inline_transform_identity (x : List Char)
    (h : ∀ c ∈ x, ¬(c = '*' ∨ c = '_')) :
    process_inline x = x ∧ process_inline (process_inline x) = x := by
  have hx : process_inline x = x := subBoldF_id x.length x h
  exact ⟨hx, by rw [hx, hx]⟩

/-- C7 witness: the transform fixes a marker-free text. -/
theorem inline_transform_identity_witness :
    process_inline (cl "plain text") = cl "plain text" ∧
    process_inline (process_inline (cl "plain text")) = cl "plain text" :=
  inline_transform_identity (cl "plain text") (by decide)

/-- C8: the block parser terminates on every finite input — the
fuel-counted loop, given one unit of fuel per line plus one, never
exhausts its fuel, because every iteration consumes at least the
current line. -/
theorem block_parser_terminates (lines : List (List Char)) :
    parseMDF (lines.length + 1) lines = some (parseMD lines) :=
  parseMDF_sound _ _ (Nat.lt_succ_self _)

/-- C9: classification order makes the separator test win over the list
pattern — a list-pattern line containing the separator starts a table
run (emitting either nothing or a table node, never a list block) —
while a heading-pattern line containing the separator is still a
heading. -/
theorem pipe_precedence_over_list_and_heading :
    (∀ (l : List Char) (ls : List (List Char)) (g1 txt : List Char),
      listMatch (pstrip l) = some (g1, txt) → hasChar '|' (pstrip l) = true →
      parseMD (l :: ls) = parseMD (ls.dropWhile hasPipe) ∨
        ∃ data, parse_table (l :: ls.takeWhile hasPipe) = some data ∧
          parseMD (l :: ls) = Node.table data :: Node.spacer :: parseMD (ls.dropWhile hasPipe)) ∧
    (∀ (l : List Char) (ls : List (List Char)) (lvl : Nat) (txt : List Char),
      headingMatch (pstrip l) = some (lvl, txt) → hasChar '|' (pstrip l) = true →
      parseMD (l :: ls) = Node.heading lvl (process_inline txt) :: Node.spacer :: parseMD ls) := by
  refine ⟨?_, ?_⟩
  · intro l ls g1 txt h hp
    have hc := classify_tbl (heading_none_of_list h) hp
    cases hpt : parse_table (l :: ls.takeWhile hasPipe) with
    | none => left; rw [parseMD_cons_tbl hc, hpt]
    | some data => right; exact ⟨data, rfl, by rw [parseMD_cons_tbl hc, hpt]⟩
  · intro l ls lvl txt h _
    exact parseMD_cons_head (classify_head h)

/-- C9 witness: `* a | b` is handled by the table rule; `# a | b` stays
a heading. -/
theorem pipe_precedence_witness :
    (parseMD [cl "* a | b"] = parseMD (List.dropWhile hasPipe ([] : List (List Char))) ∨
      ∃ data,
        parse_table (cl "* a | b" :: List.takeWhile hasPipe ([] : List (List Char))) = some data ∧
          parseMD [cl "* a | b"] =
            Node.table data :: Node.spacer :: parseMD (List.dropWhile hasPipe ([] : List (List Char)))) ∧
    parseMD [cl "# a | b"] =
      Node.heading 1 (process_inline (cl "a | b")) :: Node.spacer :: parseMD [] :=
  ⟨pipe_precedence_over_list_and_heading.1 (cl "* a | b") [] ['*'] (cl "a | b")
      (by decide) (by decide),
    pipe_precedence_over_list_and_heading.2 (cl "# a | b") [] 1 (cl "a | b")
      (by decide) (by decide)⟩

/-- C10: a line whose stripped form is exactly 1 to 6 marker characters
never matches the heading pattern and is emitted as a paragraph whose
text is the literal marker characters. -/
theorem hash_only_line_is_paragraph (l : List Char) (ls : List (List Char)) (k : Nat)
    (hge : 1 ≤ k) (hle : k ≤ 6) (hs : pstrip l = List.replicate k '#') :
    headingMatch (pstrip l) = none ∧
    parseMD (l :: ls) = Node.paragraph (List.replicate k '#') :: Node.spacer :: parseMD ls := by
  have hm : headingMatch (pstrip l) = none := by rw [hs]; exact headingMatch_replicate_hash k
  have hpipe : hasChar '|' (pstrip l) = false := by
    rw [hs]
    exact hasChar_eq_false (fun hmem => absurd (List.eq_of_mem_replicate hmem) (by decide))
  have hid : process_inline (pstrip l) = pstrip l := by
    rw [hs]
    exact subBoldF_id _ _ (fun c hc => by rw [List.eq_of_mem_replicate hc]; decide)
  obtain ⟨j, rfl⟩ : ∃ j, k = j + 1 := ⟨k - 1, by omega⟩
  have hrep : pstrip l = '#' :: List.replicate j '#' := by rw [hs, List.replicate_succ]
  have hlm : listMatch (pstrip l) = none := by rw [hrep]; exact listMatch_none_of_hash
  have hne : pstrip l ≠ [] := by rw [hrep]; simp
  refine ⟨hm, ?_⟩
  rw [parseMD_cons_para (classify_para hne hm hpipe hlm), hid, hs]

/-- C10 witness: the line consisting of one marker and a trailing space
becomes the paragraph holding the literal marker. -/
theorem hash_only_line_is_paragraph_witness :
    headingMatch (pstrip (cl "# ")) = none ∧
    parseMD [cl "# "] = Node.paragraph (List.replicate 1 '#') :: Node.spacer :: parseMD [] :=
  hash_only_line_is_paragraph (cl "# ") [] 1 (by decide) (by decide) (by decide)
